import Mathlib

/-!
Shallow embedding of the symbol-table resolution subsystem and the binary
value encoder of the `ion-rust` repository (files `src/lazy/system_reader.rs`
and `src/lazy/encoder/binary/v1_0/value_writer.rs`), together with theorems
checking the natural-language specification against it.

Buffers are modelled as `List Nat` of byte values; machine integers are
modelled as `Nat`/`Int`; fallible operations return `Except IonError` or an
`Option IonError` paired with the (possibly partially mutated) state when the
original code mutates state in place before reporting an error.
-/

/-- The Ion type enumeration (`IonType` in the source). -/
inductive IonType where
  | null
  | bool
  | int
  | float
  | decimal
  | timestamp
  | symbol
  | string
  | clob
  | blob
  | list
  | sexp
  | struct
deriving DecidableEq, Repr

/-- `RawSymbolTokenRef` from the source: a symbol reference carried either as
an integer symbol ID or as text. -/
inductive RawSymbolTokenRef where
  | symbolId (sid : Nat)
  | text (t : String)
deriving DecidableEq, Repr

/-- Modelled from the spec: `matches_sid_or_text` (declared outside `src/`);
"by ID 3 or by matching text `$ion_symbol_table`" — an ID token matches the
given ID, a text token matches the given text. -/
def RawSymbolTokenRef.matches_sid_or_text
    (tok : RawSymbolTokenRef) (sid : Nat) (txt : String) : Bool :=
  match tok with
  | .symbolId s => s == sid
  | .text t => t == txt

/-- The error kinds relevant to the embedded code (`IonError` in the source). -/
inductive IonError where
  | decodingError (msg : String)
  | illegalOperation (msg : String)
  | encodingError (msg : String)
deriving DecidableEq, Repr

/-- Recognises the decoding-error variant. -/
def IonError.isDecodingError : IonError → Bool
  | .decodingError _ => true
  | _ => false

/-- A materialised Ion value, covering the shapes `ExpandedValueRef` exposes
to the symbol-table resolver: nulls (of any Ion type), scalars, symbols,
lists and structs (a struct is its ordered field list, each field a raw name
token and a value). -/
inductive Value where
  | nullValue (t : IonType)
  | boolValue (b : Bool)
  | intValue (i : Int)
  | stringValue (s : String)
  | symbolValue (tok : RawSymbolTokenRef)
  | listValue (elems : List Value)
  | structValue (fields : List (RawSymbolTokenRef × Value))

/-- Recognises list values (used to state the unsupported-imports condition). -/
def Value.isListValue : Value → Bool
  | .listValue _ => true
  | _ => false

/-- `PendingLst` from `system_reader.rs`: the pending local-symbol-table
change set. -/
structure PendingLst where
  has_changes : Bool
  is_lst_append : Bool
  symbols : List (Option String)
deriving DecidableEq, Repr

/-- `PendingLst::new`: created empty. -/
def PendingLst.new : PendingLst :=
  { has_changes := false, is_lst_append := false, symbols := [] }

/-- Modelled from the spec: the live `SymbolTable` (its implementation is not
under `src/`; only its callers are). An ordered mapping from 1-based symbol ID
to optional text, represented as the list of entries (ID `i` is index
`i - 1`); IDs are dense and monotonically assigned. -/
structure SymbolTable where
  symbols : List (Option String)
deriving DecidableEq, Repr

/-- Modelled from the spec: the immutable system symbols occupying the first
IDs of every symbol table (`$ion_symbol_table` = 3, `imports` = 6,
`symbols` = 7). -/
def systemSymbols : List (Option String) :=
  [some "$ion", some "$ion_1_0", some "$ion_symbol_table", some "name",
   some "version", some "imports", some "symbols", some "max_id",
   some "$ion_shared_symbol_table"]

/-- Modelled from the spec: `SymbolTable::reset` restores the table to contain
only the immutable system symbols. -/
def SymbolTable.reset (_st : SymbolTable) : SymbolTable :=
  { symbols := systemSymbols }

/-- Modelled from the spec: `SymbolTable::intern_or_add_placeholder` appends
one entry (text or placeholder) at the next sequential ID. -/
def SymbolTable.intern_or_add_placeholder
    (st : SymbolTable) (s : Option String) : SymbolTable :=
  { symbols := st.symbols ++ [s] }

/-- `LazySystemReader::apply_pending_lst` from `system_reader.rs`: commits the
pending change set into the live table. If `is_lst_append` is set and there
are no pending symbols, it returns early (leaving both arguments unchanged);
otherwise it resets the table when `is_lst_append` is unset, drains every
pending entry into the table in order, and clears `is_lst_append`. Returns
the updated table and the updated pending change set. -/
def apply_pending_lst (symbol_table : SymbolTable) (pending_lst : PendingLst) :
    SymbolTable × PendingLst :=
  if pending_lst.is_lst_append && pending_lst.symbols.isEmpty then
    (symbol_table, pending_lst)
  else
    let st0 := if pending_lst.is_lst_append then symbol_table else symbol_table.reset
    let st1 := pending_lst.symbols.foldl SymbolTable.intern_or_add_placeholder st0
    (st1, { pending_lst with symbols := [], is_lst_append := false })

/-- `LazySystemReader::process_symbols` from `system_reader.rs`: if the
`symbols` field value is a list, push `some text` for each string element and
`none` for each non-string element, in order; any non-list value (including
null) is ignored. -/
def process_symbols (pending_lst : PendingLst) (symbols : Value) : PendingLst :=
  match symbols with
  | .listValue elems =>
      { pending_lst with
        symbols := pending_lst.symbols ++ elems.map (fun e =>
          match e with
          | .stringValue s => some s
          | _ => none) }
  | _ => pending_lst

/-- `LazySystemReader::process_imports` from `system_reader.rs`: a symbol
value matching ID 3 or text `$ion_symbol_table` sets `is_lst_append`; a list
value is an unsupported shared-symbol-table import and yields a decoding
error; every other value is ignored. The returned `PendingLst` is the state
after the call (the original mutates in place). -/
def process_imports (pending_lst : PendingLst) (imports : Value) :
    PendingLst × Option IonError :=
  match imports with
  | .symbolValue tok =>
      if tok.matches_sid_or_text 3 "$ion_symbol_table" then
        ({ pending_lst with is_lst_append := true }, none)
      else
        (pending_lst, none)
  | .listValue _ =>
      (pending_lst,
       some (.decodingError
         "This implementation does not yet support shared symbol table imports"))
  | _ => (pending_lst, none)

/-- One iteration of the field loop in
`LazySystemReader::process_symbol_table`: the `symbols` check runs first
(duplicate ⇒ decoding error, else the field value is processed and the flag
set), then the `imports` check (duplicate ⇒ decoding error, else
`process_imports` runs). Returns the updated pending set, the updated
found-flags, and the error if one occurred. -/
def process_symbol_table_field
    (pending_lst : PendingLst) (found_symbols_field found_imports_field : Bool)
    (name : RawSymbolTokenRef) (value : Value) :
    (PendingLst × Bool × Bool) × Option IonError :=
  if name.matches_sid_or_text 7 "symbols" && found_symbols_field then
    ((pending_lst, found_symbols_field, found_imports_field),
     some (.decodingError "found symbol table with multiple symbols fields"))
  else
    let pending_lst :=
      if name.matches_sid_or_text 7 "symbols" then
        process_symbols pending_lst value
      else pending_lst
    let found_symbols_field :=
      found_symbols_field || name.matches_sid_or_text 7 "symbols"
    if name.matches_sid_or_text 6 "imports" && found_imports_field then
      ((pending_lst, found_symbols_field, found_imports_field),
       some (.decodingError "found symbol table with multiple imports fields"))
    else if name.matches_sid_or_text 6 "imports" then
      match process_imports pending_lst value with
      | (p, e) => ((p, found_symbols_field, true), e)
    else
      ((pending_lst, found_symbols_field, found_imports_field), none)

/-- The field loop of `LazySystemReader::process_symbol_table`: fields are
visited in order; the first error stops the loop, keeping the pending-set
mutations made so far. -/
def process_symbol_table_fields
    (pending_lst : PendingLst) (found_symbols_field found_imports_field : Bool) :
    List (RawSymbolTokenRef × Value) → PendingLst × Option IonError
  | [] => (pending_lst, none)
  | (name, value) :: rest =>
    match process_symbol_table_field pending_lst found_symbols_field
        found_imports_field name value with
    | ((p, fs, fi), none) => process_symbol_table_fields p fs fi rest
    | ((p, _, _), some e) => (p, some e)

/-- `LazySystemReader::process_symbol_table` from `system_reader.rs`: expects
a struct and runs the field loop with both found-flags initially unset. -/
def process_symbol_table (pending_lst : PendingLst) (symbol_table : Value) :
    PendingLst × Option IonError :=
  match symbol_table with
  | .structValue fields => process_symbol_table_fields pending_lst false false fields
  | _ => (pending_lst, some (.decodingError "expected struct"))

/-- Modelled from the spec: the reader loop that drives these helpers is not
under `src/`. On a symbol-table struct it runs `process_symbol_table`; an
error propagates to the caller and the commit never happens (the live table
is left as it was); on success the pending change set is committed via
`apply_pending_lst` before the next top-level item is surfaced. -/
def handle_symbol_table_struct (symbol_table : SymbolTable)
    (pending_lst : PendingLst) (v : Value) :
    (SymbolTable × PendingLst) × Option IonError :=
  match process_symbol_table pending_lst v with
  | (p, some e) => ((symbol_table, p), some e)
  | (p, none) => (apply_pending_lst symbol_table p, none)

/-! ### Helper lemmas -/

theorem foldl_intern_symbols (l : List (Option String)) (st : SymbolTable) :
    (l.foldl SymbolTable.intern_or_add_placeholder st).symbols = st.symbols ++ l := by
  induction l generalizing st with
  | nil => simp
  | cons x xs ih =>
      simp [List.foldl_cons, ih, SymbolTable.intern_or_add_placeholder]

/-- A field name token cannot match both `symbols` (ID 7 / text) and
`imports` (ID 6 / text). -/
theorem matches_imports_eq_false_of_symbols (n : RawSymbolTokenRef)
    (h : n.matches_sid_or_text 7 "symbols" = true) :
    n.matches_sid_or_text 6 "imports" = false := by
  cases n with
  | symbolId s =>
      simp [RawSymbolTokenRef.matches_sid_or_text] at h ⊢
      omega
  | text t =>
      simp [RawSymbolTokenRef.matches_sid_or_text] at h ⊢
      subst h
      decide

theorem matches_symbols_eq_false_of_imports (n : RawSymbolTokenRef)
    (h : n.matches_sid_or_text 6 "imports" = true) :
    n.matches_sid_or_text 7 "symbols" = false := by
  cases n with
  | symbolId s =>
      simp [RawSymbolTokenRef.matches_sid_or_text] at h ⊢
      omega
  | text t =>
      simp [RawSymbolTokenRef.matches_sid_or_text] at h ⊢
      subst h
      decide

/-- `process_imports` reports no error on a non-list value. -/
theorem process_imports_snd_none (p : PendingLst) (v : Value)
    (hv : v.isListValue = false) : (process_imports p v).2 = none := by
  cases v with
  | symbolValue t => simp only [process_imports]; split <;> rfl
  | listValue l => simp [Value.isListValue] at hv
  | nullValue t => rfl
  | boolValue b => rfl
  | intValue i => rfl
  | stringValue s => rfl
  | structValue fs2 => rfl

/-- Every error `process_imports` reports is a decoding error. -/
theorem process_imports_snd_cases (p : PendingLst) (v : Value) :
    (process_imports p v).2 = none ∨
    ∃ m, (process_imports p v).2 = some (.decodingError m) := by
  cases v with
  | symbolValue t =>
      simp only [process_imports]
      split <;> exact Or.inl rfl
  | listValue l => exact Or.inr ⟨_, rfl⟩
  | nullValue t => exact Or.inl rfl
  | boolValue b => exact Or.inl rfl
  | intValue i => exact Or.inl rfl
  | stringValue s => exact Or.inl rfl
  | structValue fs2 => exact Or.inl rfl

/-- Every error one field-loop iteration reports is a decoding error. -/
theorem field_snd_cases (p : PendingLst) (fs fi : Bool)
    (n : RawSymbolTokenRef) (v : Value) :
    (process_symbol_table_field p fs fi n v).2 = none ∨
    ∃ m, (process_symbol_table_field p fs fi n v).2 = some (.decodingError m) := by
  unfold process_symbol_table_field
  split
  · exact Or.inr ⟨_, rfl⟩
  · dsimp only
    split
    · exact Or.inr ⟨_, rfl⟩
    · split
      · rcases process_imports_snd_cases
            (if n.matches_sid_or_text 7 "symbols" = true then process_symbols p v
             else p) v with hc | ⟨m, hc⟩
        · cases hpi : process_imports
              (if n.matches_sid_or_text 7 "symbols" = true then process_symbols p v
               else p) v with
          | mk p2 e2 =>
              rw [hpi] at hc
              exact Or.inl hc
        · cases hpi : process_imports
              (if n.matches_sid_or_text 7 "symbols" = true then process_symbols p v
               else p) v with
          | mk p2 e2 =>
              rw [hpi] at hc
              exact Or.inr ⟨m, hc⟩
      · exact Or.inl rfl

/-- Every error the field loop reports is a decoding error. -/
theorem fields_snd_cases (fields : List (RawSymbolTokenRef × Value)) :
    ∀ (p : PendingLst) (fs fi : Bool),
    (process_symbol_table_fields p fs fi fields).2 = none ∨
    ∃ m, (process_symbol_table_fields p fs fi fields).2 =
      some (.decodingError m) := by
  induction fields with
  | nil => intro p fs fi; exact Or.inl rfl
  | cons f rest ih =>
    obtain ⟨n, v⟩ := f
    intro p fs fi
    unfold process_symbol_table_fields
    cases hfe : process_symbol_table_field p fs fi n v with
    | mk q oe =>
      obtain ⟨p2, fs2, fi2⟩ := q
      rcases field_snd_cases p fs fi n v with hc | ⟨m, hc⟩ <;> rw [hfe] at hc
      · simp only at hc
        subst hc
        simpa using ih p2 fs2 fi2
      · simp only at hc
        subst hc
        exact Or.inr ⟨m, by simp⟩

/-- Matches a field whose name is the `symbols` field name (ID 7 or text). -/
def fieldMatchesSymbols (f : RawSymbolTokenRef × Value) : Bool :=
  f.1.matches_sid_or_text 7 "symbols"

/-- Matches a field whose name is the `imports` field name (ID 6 or text). -/
def fieldMatchesImports (f : RawSymbolTokenRef × Value) : Bool :=
  f.1.matches_sid_or_text 6 "imports"

/-- The field loop reports an error whenever, relative to the incoming
found-flags, the fields contain a duplicate `symbols` field, a duplicate
`imports` field, or an `imports` field holding a list. -/
theorem countP_cons_true {α : Type} (p : α → Bool) (a : α) (l : List α)
    (h : p a = true) : List.countP p (a :: l) = List.countP p l + 1 := by
  rw [List.countP_cons, h]
  simp

theorem countP_cons_false {α : Type} (p : α → Bool) (a : α) (l : List α)
    (h : p a = false) : List.countP p (a :: l) = List.countP p l := by
  rw [List.countP_cons, h]
  simp

/-- The field loop reports an error whenever, relative to the incoming
found-flags, the fields contain a duplicate `symbols` field, a duplicate
`imports` field, or an `imports` field holding a list. -/
theorem fields_error_of_bad (fields : List (RawSymbolTokenRef × Value)) :
    ∀ (p : PendingLst) (fs fi : Bool),
    ((fs = true ∧ 1 ≤ fields.countP fieldMatchesSymbols) ∨
     2 ≤ fields.countP fieldMatchesSymbols ∨
     (fi = true ∧ 1 ≤ fields.countP fieldMatchesImports) ∨
     2 ≤ fields.countP fieldMatchesImports ∨
     (∃ f ∈ fields, fieldMatchesImports f = true ∧ f.2.isListValue = true)) →
    (process_symbol_table_fields p fs fi fields).2.isSome = true := by
  induction fields with
  | nil =>
      intro p fs fi h
      simp [fieldMatchesSymbols, fieldMatchesImports] at h
  | cons f rest ih =>
    obtain ⟨n, v⟩ := f
    intro p fs fi h
    cases hms : n.matches_sid_or_text 7 "symbols" with
    | true =>
      have hmi := matches_imports_eq_false_of_symbols n hms
      have hfmS : fieldMatchesSymbols (n, v) = true := by
        simp [fieldMatchesSymbols, hms]
      have hfmI : fieldMatchesImports (n, v) = false := by
        simp [fieldMatchesImports, hmi]
      cases hfs : fs with
      | true =>
          simp [process_symbol_table_fields, process_symbol_table_field, hms, hfs]
      | false =>
        subst hfs
        have hstep : process_symbol_table_fields p false fi ((n, v) :: rest) =
            process_symbol_table_fields (process_symbols p v) true fi rest := by
          simp [process_symbol_table_fields, process_symbol_table_field, hms, hmi]
        rw [hstep]
        apply ih
        rcases h with ⟨hfs2, hcnt⟩ | hcnt | ⟨hfi2, hcnt⟩ | hcnt | ⟨f, hf, hfm, hfl⟩
        · exact absurd hfs2 (by decide)
        · rw [countP_cons_true _ _ _ hfmS] at hcnt
          exact Or.inl ⟨rfl, by omega⟩
        · rw [countP_cons_false _ _ _ hfmI] at hcnt
          exact Or.inr (Or.inr (Or.inl ⟨hfi2, hcnt⟩))
        · rw [countP_cons_false _ _ _ hfmI] at hcnt
          exact Or.inr (Or.inr (Or.inr (Or.inl hcnt)))
        · rcases List.mem_cons.mp hf with heq | hmem
          · rw [heq] at hfm
            simp [hfmI] at hfm
          · exact Or.inr (Or.inr (Or.inr (Or.inr ⟨f, hmem, hfm, hfl⟩)))
    | false =>
      have hfmS : fieldMatchesSymbols (n, v) = false := by
        simp [fieldMatchesSymbols, hms]
      cases hmi : n.matches_sid_or_text 6 "imports" with
      | true =>
        have hfmI : fieldMatchesImports (n, v) = true := by
          simp [fieldMatchesImports, hmi]
        cases hfi : fi with
        | true =>
            simp [process_symbol_table_fields, process_symbol_table_field,
                  hms, hmi, hfi]
        | false =>
          subst hfi
          cases hvl : v.isListValue with
          | true =>
            cases v <;> simp [Value.isListValue] at hvl
            simp [process_symbol_table_fields, process_symbol_table_field,
                  hms, hmi, process_imports]
          | false =>
            have hnone := process_imports_snd_none p v hvl
            cases hpi : process_imports p v with
            | mk p2 e2 =>
              rw [hpi] at hnone
              subst hnone
              have hstep : process_symbol_table_fields p fs false ((n, v) :: rest) =
                  process_symbol_table_fields p2 fs true rest := by
                simp [process_symbol_table_fields, process_symbol_table_field,
                      hms, hmi, hpi]
              rw [hstep]
              apply ih
              rcases h with ⟨hfs2, hcnt⟩ | hcnt | ⟨hfi2, hcnt⟩ | hcnt |
                  ⟨f, hf, hfm, hfl⟩
              · rw [countP_cons_false _ _ _ hfmS] at hcnt
                exact Or.inl ⟨hfs2, hcnt⟩
              · rw [countP_cons_false _ _ _ hfmS] at hcnt
                exact Or.inr (Or.inl hcnt)
              · exact absurd hfi2 (by decide)
              · rw [countP_cons_true _ _ _ hfmI] at hcnt
                exact Or.inr (Or.inr (Or.inl ⟨rfl, by omega⟩))
              · rcases List.mem_cons.mp hf with heq | hmem
                · rw [heq] at hfl
                  simp [hvl] at hfl
                · exact Or.inr (Or.inr (Or.inr (Or.inr ⟨f, hmem, hfm, hfl⟩)))
      | false =>
        have hfmI : fieldMatchesImports (n, v) = false := by
          simp [fieldMatchesImports, hmi]
        have hstep : process_symbol_table_fields p fs fi ((n, v) :: rest) =
            process_symbol_table_fields p fs fi rest := by
          simp [process_symbol_table_fields, process_symbol_table_field, hms, hmi]
        rw [hstep]
        apply ih
        rcases h with ⟨hfs2, hcnt⟩ | hcnt | ⟨hfi2, hcnt⟩ | hcnt | ⟨f, hf, hfm, hfl⟩
        · rw [countP_cons_false _ _ _ hfmS] at hcnt
          exact Or.inl ⟨hfs2, hcnt⟩
        · rw [countP_cons_false _ _ _ hfmS] at hcnt
          exact Or.inr (Or.inl hcnt)
        · rw [countP_cons_false _ _ _ hfmI] at hcnt
          exact Or.inr (Or.inr (Or.inl ⟨hfi2, hcnt⟩))
        · rw [countP_cons_false _ _ _ hfmI] at hcnt
          exact Or.inr (Or.inr (Or.inr (Or.inl hcnt)))
        · rcases List.mem_cons.mp hf with heq | hmem
          · rw [heq] at hfm
            simp [hfmI] at hfm
          · exact Or.inr (Or.inr (Or.inr (Or.inr ⟨f, hmem, hfm, hfl⟩)))

/-! ### Claims about the symbol-table subsystem -/

/-- C1: with `is_lst_append` unset, committing the pending change set resets
the live table to exactly the system symbols followed by the pending entries
in order (so previously added non-system symbols are gone and new symbols
take the IDs immediately after the system symbols), and the pending list is
left empty. -/
theorem claim_C1_reset_then_append (st : SymbolTable) (p : PendingLst)
    (h : p.is_lst_append = false) :
    (apply_pending_lst st p).1.symbols = systemSymbols ++ p.symbols ∧
    (apply_pending_lst st p).2.symbols = [] := by
  simp [apply_pending_lst, h, SymbolTable.reset, foldl_intern_symbols]

theorem claim_C1_reset_then_append_witness :
    (({ has_changes := true, is_lst_append := false,
        symbols := [some "foo", some "bar"] } : PendingLst).is_lst_append = false) ∧
    ((apply_pending_lst { symbols := systemSymbols ++ [some "old"] }
        { has_changes := true, is_lst_append := false,
          symbols := [some "foo", some "bar"] }).1.symbols
      = systemSymbols ++ [some "foo", some "bar"] ∧
     (apply_pending_lst { symbols := systemSymbols ++ [some "old"] }
        { has_changes := true, is_lst_append := false,
          symbols := [some "foo", some "bar"] }).2.symbols = []) :=
  ⟨rfl, claim_C1_reset_then_append _ _ rfl⟩

/-- C2: an `imports` value that is the symbol `$ion_symbol_table` (matched by
ID 3 or by text) sets `is_lst_append` and nothing else; any other non-list
value leaves the pending change set unchanged (so the flag stays unset); and
a commit with `is_lst_append` set and a non-empty pending list appends each
pending entry to the live table in order at the next sequential IDs, removing
no existing symbol, then empties the pending list. -/
theorem claim_C2_append_mode (p q : PendingLst) (tok : RawSymbolTokenRef)
    (st : SymbolTable) (v : Value) :
    (tok.matches_sid_or_text 3 "$ion_symbol_table" = true →
      process_imports p (.symbolValue tok) =
        ({ p with is_lst_append := true }, none)) ∧
    (v.isListValue = false →
      (∀ t, v = .symbolValue t →
        t.matches_sid_or_text 3 "$ion_symbol_table" = false) →
      process_imports p v = (p, none)) ∧
    (q.is_lst_append = true → q.symbols ≠ [] →
      (apply_pending_lst st q).1.symbols = st.symbols ++ q.symbols ∧
      (apply_pending_lst st q).2.symbols = []) := by
  refine ⟨fun h => by simp [process_imports, h], fun hv hsym => ?_, fun hq hne => ?_⟩
  · cases v with
    | symbolValue t => simp [process_imports, hsym t rfl]
    | listValue l => simp [Value.isListValue] at hv
    | _ => simp [process_imports]
  · cases hsy : q.symbols.isEmpty with
    | true => exact absurd (List.isEmpty_iff.mp hsy) hne
    | false => simp [apply_pending_lst, hq, hsy, foldl_intern_symbols]

theorem claim_C2_append_mode_witness :
    ((RawSymbolTokenRef.symbolId 3).matches_sid_or_text 3 "$ion_symbol_table" = true) ∧
    process_imports PendingLst.new (.symbolValue (.symbolId 3)) =
      ({ PendingLst.new with is_lst_append := true }, none) ∧
    process_imports PendingLst.new (.stringValue "x") = (PendingLst.new, none) ∧
    (apply_pending_lst { symbols := systemSymbols }
       { has_changes := true, is_lst_append := true,
         symbols := [some "baz"] }).1.symbols = systemSymbols ++ [some "baz"] := by
  obtain ⟨h1, h2, h3⟩ := claim_C2_append_mode PendingLst.new
      { has_changes := true, is_lst_append := true, symbols := [some "baz"] }
      (.symbolId 3) { symbols := systemSymbols } (.stringValue "x")
  exact ⟨rfl, h1 rfl, h2 rfl (fun t ht => nomatch ht), (h3 rfl (by decide)).1⟩

/-- C3 counterexample: in the no-op case (`is_lst_append` set and the pending
list empty) `apply_pending_lst` returns early, so `is_lst_append` is NOT
reset to false, contradicting the claim that it is false after every
commit. -/
theorem claim_C3_counterexample :
    ¬ ((apply_pending_lst { symbols := systemSymbols }
        { has_changes := true, is_lst_append := true,
          symbols := [] }).2.is_lst_append = false) := by
  decide

/-- C3 amended: after `apply_pending_lst` the pending symbols list is always
empty, and `is_lst_append` is reset to false except in the no-op case
(`is_lst_append` set and the pending list empty), where the function returns
early and the pending change set — the flag included — is left untouched. -/
theorem claim_C3_pending_cleared (st : SymbolTable) (p : PendingLst) :
    (apply_pending_lst st p).2.symbols = [] ∧
    (¬(p.is_lst_append = true ∧ p.symbols = []) →
      (apply_pending_lst st p).2.is_lst_append = false) ∧
    (p.is_lst_append = true ∧ p.symbols = [] →
      (apply_pending_lst st p).2 = p) := by
  obtain ⟨hc, app, syms⟩ := p
  cases app <;> cases syms <;> simp [apply_pending_lst]

theorem claim_C3_pending_cleared_witness :
    (¬ ((false : Bool) = true ∧ ([some "a"] : List (Option String)) = [])) ∧
    (apply_pending_lst { symbols := systemSymbols }
       { has_changes := true, is_lst_append := false,
         symbols := [some "a"] }).2.symbols = [] ∧
    (apply_pending_lst { symbols := systemSymbols }
       { has_changes := true, is_lst_append := false,
         symbols := [some "a"] }).2.is_lst_append = false := by
  obtain ⟨h1, h2, _⟩ := claim_C3_pending_cleared { symbols := systemSymbols }
      { has_changes := true, is_lst_append := false, symbols := [some "a"] }
  exact ⟨by decide, h1, h2 (by decide)⟩

/-- C5: a `symbols` field whose value is a list contributes one pending entry
per element in element order — `some text` for string elements, `none` for
every non-string element (nulls included) — appended after the entries
already pending; a non-list value (nulls included) is ignored and contributes
nothing. -/
theorem claim_C5_symbols_field (p : PendingLst) (elems : List Value) (v : Value) :
    process_symbols p (.listValue elems) =
      { p with symbols := p.symbols ++ elems.map (fun e =>
          match e with
          | .stringValue s => some s
          | _ => none) } ∧
    (v.isListValue = false → process_symbols p v = p) := by
  refine ⟨by simp [process_symbols], fun hv => ?_⟩
  cases v with
  | listValue l => simp [Value.isListValue] at hv
  | _ => simp [process_symbols]

theorem claim_C5_symbols_field_witness :
    ((Value.intValue 5).isListValue = false) ∧
    process_symbols PendingLst.new
        (.listValue [.stringValue "a", .nullValue .null, .stringValue "b"]) =
      { PendingLst.new with symbols := [some "a", none, some "b"] } ∧
    process_symbols PendingLst.new (.intValue 5) = PendingLst.new := by
  refine ⟨rfl, ?_,
    (claim_C5_symbols_field PendingLst.new [] (.intValue 5)).2 rfl⟩
  have h := (claim_C5_symbols_field PendingLst.new
      [.stringValue "a", .nullValue .null, .stringValue "b"] (.intValue 5)).1
  simpa [PendingLst.new] using h

/-- C4: a symbol-table struct containing two `symbols` fields, or two
`imports` fields, or an `imports` field whose value is a list, makes
`process_symbol_table` return a decoding error, and the live symbol table is
not mutated by that processing: the driver propagates the error and never
commits, leaving the table exactly as it was. -/
theorem claim_C4_bad_struct (st : SymbolTable) (p : PendingLst)
    (fields : List (RawSymbolTokenRef × Value))
    (hbad : 2 ≤ fields.countP fieldMatchesSymbols ∨
            2 ≤ fields.countP fieldMatchesImports ∨
            (∃ f ∈ fields, fieldMatchesImports f = true ∧ f.2.isListValue = true)) :
    (∃ m, (process_symbol_table p (.structValue fields)).2 =
        some (.decodingError m)) ∧
    (handle_symbol_table_struct st p (.structValue fields)).1.1 = st ∧
    (handle_symbol_table_struct st p (.structValue fields)).2.isSome = true := by
  have hsome : (process_symbol_table_fields p false false fields).2.isSome = true :=
    fields_error_of_bad fields p false false (by
      rcases hbad with h | h | h
      · exact Or.inr (Or.inl h)
      · exact Or.inr (Or.inr (Or.inr (Or.inl h)))
      · exact Or.inr (Or.inr (Or.inr (Or.inr h))))
  rcases fields_snd_cases fields p false false with hc | ⟨m, hc⟩
  · rw [hc] at hsome
    simp at hsome
  · have hc2 : (process_symbol_table p (.structValue fields)).2 =
        some (.decodingError m) := hc
    unfold handle_symbol_table_struct
    cases hps : process_symbol_table p (.structValue fields) with
    | mk p2 oe =>
      rw [hps] at hc2
      have hoe : oe = some (.decodingError m) := hc2
      subst hoe
      exact ⟨⟨m, rfl⟩, rfl, rfl⟩

theorem claim_C4_bad_struct_witness :
    (∃ f ∈ [((RawSymbolTokenRef.symbolId 6), Value.listValue ([] : List Value))],
        fieldMatchesImports f = true ∧ f.2.isListValue = true) ∧
    ((∃ m, (process_symbol_table PendingLst.new
        (.structValue [(RawSymbolTokenRef.symbolId 6, Value.listValue [])])).2 =
          some (.decodingError m)) ∧
     (handle_symbol_table_struct { symbols := systemSymbols } PendingLst.new
        (.structValue [(RawSymbolTokenRef.symbolId 6, Value.listValue [])])).1.1 =
       { symbols := systemSymbols } ∧
     (handle_symbol_table_struct { symbols := systemSymbols } PendingLst.new
        (.structValue [(RawSymbolTokenRef.symbolId 6, Value.listValue [])])).2.isSome
       = true) :=
  ⟨by decide,
   claim_C4_bad_struct { symbols := systemSymbols } PendingLst.new _
     (Or.inr (Or.inr (by decide)))⟩

/-- C10: when `process_symbol_table` fails on a duplicate `symbols` or
duplicate `imports` field, the pending change set keeps the mutations made
from the earlier occurrence of the field — the pending symbols extracted
from a first `symbols` list, and the `is_lst_append` flag set by a first
`imports: $ion_symbol_table` field, survive the error; nothing is rolled
back. -/
theorem claim_C10_no_rollback (p : PendingLst)
    (n1 n2 m1 m2 tok : RawSymbolTokenRef) (es : List Value) (v2 w2 : Value)
    (rest rest2 : List (RawSymbolTokenRef × Value))
    (h1 : n1.matches_sid_or_text 7 "symbols" = true)
    (h2 : n2.matches_sid_or_text 7 "symbols" = true)
    (h3 : m1.matches_sid_or_text 6 "imports" = true)
    (h4 : m2.matches_sid_or_text 6 "imports" = true)
    (htok : tok.matches_sid_or_text 3 "$ion_symbol_table" = true) :
    process_symbol_table p (.structValue ((n1, .listValue es) :: (n2, v2) :: rest)) =
      ({ p with symbols := p.symbols ++ es.map (fun e =>
          match e with
          | .stringValue s => some s
          | _ => none) },
       some (.decodingError "found symbol table with multiple symbols fields")) ∧
    process_symbol_table p
        (.structValue ((m1, .symbolValue tok) :: (m2, w2) :: rest2)) =
      ({ p with is_lst_append := true },
       some (.decodingError "found symbol table with multiple imports fields")) := by
  have h1i := matches_imports_eq_false_of_symbols n1 h1
  have h3s := matches_symbols_eq_false_of_imports m1 h3
  have h4s := matches_symbols_eq_false_of_imports m2 h4
  constructor
  · simp [process_symbol_table, process_symbol_table_fields,
          process_symbol_table_field, h1, h2, h1i, process_symbols]
  · simp [process_symbol_table, process_symbol_table_fields,
          process_symbol_table_field, h3, h4, h3s, h4s, htok, process_imports]

theorem claim_C10_no_rollback_witness :
    ((RawSymbolTokenRef.symbolId 7).matches_sid_or_text 7 "symbols" = true ∧
     (RawSymbolTokenRef.symbolId 6).matches_sid_or_text 6 "imports" = true ∧
     (RawSymbolTokenRef.symbolId 3).matches_sid_or_text 3 "$ion_symbol_table"
       = true) ∧
    process_symbol_table PendingLst.new
        (.structValue [(.symbolId 7, .listValue [.stringValue "a"]),
                       (.symbolId 7, .listValue [])]) =
      ({ PendingLst.new with symbols := [some "a"] },
       some (.decodingError "found symbol table with multiple symbols fields")) ∧
    process_symbol_table PendingLst.new
        (.structValue [(.symbolId 6, .symbolValue (.symbolId 3)),
                       (.symbolId 6, .nullValue .null)]) =
      ({ PendingLst.new with is_lst_append := true },
       some (.decodingError "found symbol table with multiple imports fields")) := by
  obtain ⟨ha, hb⟩ := claim_C10_no_rollback PendingLst.new
      (.symbolId 7) (.symbolId 7) (.symbolId 6) (.symbolId 6) (.symbolId 3)
      [.stringValue "a"] (.listValue []) (.nullValue .null) [] []
      rfl rfl rfl rfl rfl
  refine ⟨⟨rfl, rfl, rfl⟩, ?_, ?_⟩
  · simpa [PendingLst.new] using ha
  · simpa [PendingLst.new] using hb

/-! ### The binary value writer (`value_writer.rs`) -/

/-- `MAX_INLINE_LENGTH` from `value_writer.rs`: the largest length value that
fits directly in a type-descriptor byte. -/
def MAX_INLINE_LENGTH : Nat := 13

/-- The high 7-bit groups of a VarUInt, with a fuel argument for structural
recursion (the callers pass `fuel = n`, which is always sufficient because
the value shrinks by a factor of 128 at each step). -/
def varUIntHighAux : Nat → Nat → List Nat
  | 0, _ => []
  | fuel + 1, n =>
      if n = 0 then [] else varUIntHighAux fuel (n / 128) ++ [n % 128]

/-- Modelled from the spec: the high 7-bit groups of a VarUInt (big-endian
group order, continuation bytes with the high bit clear); empty for values
under 128. -/
def varUIntHigh (n : Nat) : List Nat := varUIntHighAux n n

/-- Modelled from the spec: `VarUInt::write_u64` (declared outside `src/`);
a variable-length unsigned integer, 7 payload bits per byte, most-significant
group first, the final byte carrying the terminator bit `0x80`. -/
def varUInt (n : Nat) : List Nat :=
  varUIntHigh (n / 128) ++ [n % 128 + 128]

/-- Minimal big-endian bytes with a fuel argument for structural recursion
(the callers pass `fuel = n`, always sufficient because the value shrinks by
a factor of 256 at each step). -/
def beBytesAux : Nat → Nat → List Nat
  | 0, _ => []
  | fuel + 1, n =>
      if n = 0 then [] else beBytesAux fuel (n / 256) ++ [n % 256]

/-- Minimal big-endian byte sequence of a magnitude (`uint::encode_u64` /
`BigInt::to_bytes_be` in the source); empty for zero, which the callers
special-case. -/
def beBytes (n : Nat) : List Nat := beBytesAux n n

/-- `BinaryValueWriter_1_0::write_lob` from `value_writer.rs`: descriptor
`type_code | L` when `L ≤ 13`, else `type_code | 0x0E` followed by VarUInt L;
then the payload bytes. -/
def write_lob (value : List Nat) (type_code : Nat) : List Nat :=
  let encoded_length := value.length
  if encoded_length ≤ MAX_INLINE_LENGTH then
    (type_code ||| encoded_length) :: value
  else
    (type_code ||| 0x0E) :: (varUInt encoded_length ++ value)

/-- `write_clob`: `write_lob` under type code 9. -/
def write_clob (value : List Nat) : List Nat := write_lob value 0x90

/-- `write_blob`: `write_lob` under type code 10 (0xA). -/
def write_blob (value : List Nat) : List Nat := write_lob value 0xA0

/-- `BinaryValueWriter_1_0::write_string` from `value_writer.rs`: the UTF-8
byte count drives the inline/VarUInt selection; payload is the raw UTF-8
bytes. -/
def write_string (value : String) : List Nat :=
  let text_bytes := value.toUTF8.toList.map (fun b => b.toNat)
  let encoded_length := text_bytes.length
  if encoded_length ≤ MAX_INLINE_LENGTH then
    (0x80 ||| encoded_length) :: text_bytes
  else
    0x8E :: (varUInt encoded_length ++ text_bytes)

/-- `BinaryValueWriter_1_0::write_int` from `value_writer.rs`: zero encodes
as the bare descriptor `0x20`; otherwise the sign picks type code 2 or 3 and
the minimal big-endian magnitude bytes drive the inline/VarUInt selection.
(The `i64` fast path of the source produces the same bytes as the big-int
path for every magnitude of at most 8 bytes, so one function covers both.) -/
def write_int (value : Int) : List Nat :=
  if value = 0 then [0x20]
  else
    let magnitude_be_bytes := beBytes value.natAbs
    let type_code : Nat := if value < 0 then 0x30 else 0x20
    let encoded_length := magnitude_be_bytes.length
    if encoded_length ≤ 13 then
      (type_code ||| encoded_length) :: magnitude_be_bytes
    else
      (type_code ||| 0xE) :: (varUInt encoded_length ++ magnitude_be_bytes)

/-- IEEE-754 reading of the Rust comparison `value == 0f32` on the 32-bit
pattern: true exactly when exponent and mantissa (the low 31 bits) are all
zero, i.e. the value is +0 or −0; a NaN pattern compares unequal to zero. -/
def f32_eq_zero (bits : Nat) : Bool := bits % 2 ^ 31 == 0

/-- IEEE-754 reading of Rust `f32::is_sign_negative` on the 32-bit pattern
(patterns are < 2^32): the sign bit is set. -/
def f32_is_sign_negative (bits : Nat) : Bool := decide (2 ^ 31 ≤ bits)

/-- Same for 64-bit patterns: the low 63 bits are all zero. -/
def f64_eq_zero (bits : Nat) : Bool := bits % 2 ^ 63 == 0

/-- Same for 64-bit patterns: the sign bit is set. -/
def f64_is_sign_negative (bits : Nat) : Bool := decide (2 ^ 63 ≤ bits)

/-- Fixed-width big-endian bytes (`to_be_bytes` in the source). -/
def beBytesFixed : Nat → Nat → List Nat
  | 0, _ => []
  | w + 1, n => beBytesFixed w (n / 256) ++ [n % 256]

/-- `BinaryValueWriter_1_0::write_f32` from `value_writer.rs`, on the bit
pattern of the argument: positive zero encodes as the bare descriptor
`0x40`; everything else as `0x44` followed by the 4 big-endian IEEE bytes. -/
def write_f32 (bits : Nat) : List Nat :=
  if f32_eq_zero bits && !f32_is_sign_negative bits then [0x40]
  else 0x44 :: beBytesFixed 4 bits

/-- `BinaryValueWriter_1_0::write_f64` from `value_writer.rs`, on the bit
pattern of the argument. -/
def write_f64 (bits : Nat) : List Nat :=
  if f64_eq_zero bits && !f64_is_sign_negative bits then [0x40]
  else 0x48 :: beBytesFixed 8 bits

/-- `BinaryValueWriter_1_0::write_symbol_id` from `value_writer.rs`. -/
def write_symbol_id (symbol_id : Nat) : List Nat :=
  let encoded := beBytes symbol_id
  let encoded_length := encoded.length
  if encoded_length ≤ MAX_INLINE_LENGTH then
    (0x70 ||| encoded_length) :: encoded
  else
    0x7E :: (varUInt encoded_length ++ encoded)

/-- `BinaryValueWriter_1_0::write_symbol` from `value_writer.rs`: an ID is
encoded via `write_symbol_id`; a textual symbol is an illegal operation and
nothing is written. -/
def write_symbol (value : RawSymbolTokenRef) : Except IonError (List Nat) :=
  match value with
  | .symbolId sid => .ok (write_symbol_id sid)
  | .text _ => .error (.illegalOperation
      "the Ion 1.0 raw binary writer cannot write text symbols")

/-- `BinaryAnnotationsWrapperWriter::encode_annotations_sequence` from
`value_writer.rs`: each annotation's symbol ID as a VarUInt, in order, no
separators; a textual annotation is an encoding error. -/
def encode_annotations_sequence :
    List RawSymbolTokenRef → Except IonError (List Nat)
  | [] => .ok []
  | a :: rest =>
    match a with
    | .symbolId sid =>
        match encode_annotations_sequence rest with
        | .ok tail => .ok (varUInt sid ++ tail)
        | .error e => .error e
    | .text _ => .error (.encodingError
        "binary Ion 1.0 cannot encode text literal annotations")

/-- `BinaryAnnotationsWrapperWriter::annotate_encoded_value` from
`value_writer.rs`: encodes the annotations sequence and its VarUInt length
prefix, computes the total length, and emits descriptor, length prefix,
annotations sequence and wrapped-value bytes to the parent buffer; on error
(textual annotation) nothing reaches the parent buffer. -/
def annotate_encoded_value (annotations : List RawSymbolTokenRef)
    (encoded_value : List Nat) : Except IonError (List Nat) :=
  match encode_annotations_sequence annotations with
  | .error e => .error e
  | .ok encoded_annotations_sequence =>
    let encoded_annotations_sequence_length :=
      varUInt encoded_annotations_sequence.length
    let total_length := encoded_annotations_sequence.length
        + encoded_annotations_sequence_length.length + encoded_value.length
    .ok ((if total_length ≤ MAX_INLINE_LENGTH then [0xE0 ||| total_length]
          else 0xEE :: varUInt total_length)
         ++ encoded_annotations_sequence_length
         ++ encoded_annotations_sequence
         ++ encoded_value)

/-- An annotations sequence of plain symbol IDs encodes to the concatenation
of their VarUInts, in order. -/
theorem encode_annotations_sequence_sids (sids : List Nat) :
    encode_annotations_sequence (sids.map RawSymbolTokenRef.symbolId) =
      .ok (sids.map varUInt).flatten := by
  induction sids with
  | nil => rfl
  | cons x xs ih => simp [encode_annotations_sequence, ih]

/-- C6: for an annotation sequence of integer symbol IDs, the wrapper emits
exactly: the descriptor (`0xE0 | total` when `total ≤ 13`, else `0xEE` then
VarUInt total), then the VarUInt annotations-sequence length, then the
symbol-ID VarUInts in order, then the wrapped value bytes — with
`total = len(length prefix) + len(annotations sequence) + len(value)`. -/
theorem claim_C6_annotation_layout (sids : List Nat) (v seq pre : List Nat)
    (total : Nat)
    (hseq : seq = (sids.map varUInt).flatten)
    (hpre : pre = varUInt seq.length)
    (htotal : total = pre.length + seq.length + v.length) :
    annotate_encoded_value (sids.map RawSymbolTokenRef.symbolId) v =
      .ok ((if total ≤ MAX_INLINE_LENGTH then [0xE0 ||| total]
            else 0xEE :: varUInt total) ++ pre ++ seq ++ v) := by
  subst hseq hpre htotal
  have hcomm : ((sids.map varUInt).flatten).length
        + (varUInt ((sids.map varUInt).flatten).length).length + v.length
      = (varUInt ((sids.map varUInt).flatten).length).length
        + ((sids.map varUInt).flatten).length + v.length := by omega
  simp only [annotate_encoded_value, encode_annotations_sequence_sids, hcomm]

theorem claim_C6_annotation_layout_witness :
    (([10, 200].map varUInt).flatten = [0x8A, 0x01, 0xC8]) ∧
    annotate_encoded_value
        ([10, 200].map RawSymbolTokenRef.symbolId) [0x21, 0x05] =
      .ok ((if (varUInt ([0x8A, 0x01, 0xC8] : List Nat).length).length
              + ([0x8A, 0x01, 0xC8] : List Nat).length + 2 ≤ MAX_INLINE_LENGTH
            then [0xE0 ||| ((varUInt ([0x8A, 0x01, 0xC8] : List Nat).length).length
              + ([0x8A, 0x01, 0xC8] : List Nat).length + 2)]
            else 0xEE :: varUInt ((varUInt ([0x8A, 0x01, 0xC8] : List Nat).length).length
              + ([0x8A, 0x01, 0xC8] : List Nat).length + 2))
           ++ varUInt ([0x8A, 0x01, 0xC8] : List Nat).length
           ++ [0x8A, 0x01, 0xC8] ++ [0x21, 0x05]) :=
  ⟨by decide,
   claim_C6_annotation_layout [10, 200] [0x21, 0x05] [0x8A, 0x01, 0xC8]
     (varUInt ([0x8A, 0x01, 0xC8] : List Nat).length) _ (by decide) rfl rfl⟩

/-- C7: for the variable-length encodings (lob payloads shared by clob and
blob, strings, non-zero ints): a payload of length `L ≤ 13` produces the
single descriptor byte `code | L` (an inline selector that is never 14),
and `L > 13` produces `code | 14` followed by VarUInt L, then the payload. -/
theorem claim_C7_length_selection (v mb : List Nat) (code : Nat) (s : String)
    (i : Int)
    (hmb : mb = beBytes i.natAbs) :
    (v.length ≤ 13 →
      write_lob v code = (code ||| v.length) :: v ∧ v.length ≠ 14) ∧
    (13 < v.length →
      write_lob v code = (code ||| 14) :: (varUInt v.length ++ v)) ∧
    write_clob v = write_lob v 0x90 ∧
    write_blob v = write_lob v 0xA0 ∧
    ((s.toUTF8.toList.map (fun b => b.toNat)).length ≤ 13 →
      write_string s = (0x80 ||| (s.toUTF8.toList.map (fun b => b.toNat)).length)
        :: (s.toUTF8.toList.map (fun b => b.toNat))) ∧
    (13 < (s.toUTF8.toList.map (fun b => b.toNat)).length →
      write_string s = 0x8E :: (varUInt (s.toUTF8.toList.map (fun b => b.toNat)).length
        ++ (s.toUTF8.toList.map (fun b => b.toNat)))) ∧
    (i ≠ 0 → mb.length ≤ 13 →
      write_int i = ((if i < 0 then 0x30 else 0x20) ||| mb.length) :: mb) ∧
    (i ≠ 0 → 13 < mb.length →
      write_int i = ((if i < 0 then 0x30 else 0x20) ||| 14)
        :: (varUInt mb.length ++ mb)) := by
  subst hmb
  refine ⟨fun h => ⟨?_, by omega⟩, fun h => ?_, rfl, rfl,
    fun h => ?_, fun h => ?_, fun hi h => ?_, fun hi h => ?_⟩
  · simp [write_lob, MAX_INLINE_LENGTH, h]
  · simp [write_lob, MAX_INLINE_LENGTH, Nat.not_le.mpr h]
  · simp only [write_string, MAX_INLINE_LENGTH]
    rw [if_pos h]
  · simp only [write_string, MAX_INLINE_LENGTH]
    rw [if_neg (Nat.not_le.mpr h)]
  · simp only [write_int]
    rw [if_neg hi, if_pos h]
  · simp only [write_int]
    rw [if_neg hi, if_neg (Nat.not_le.mpr h)]

theorem claim_C7_length_selection_witness :
    ((beBytes (Int.natAbs 300) = [1, 44]) ∧ ((300 : Int) ≠ 0) ∧
      (beBytes (Int.natAbs 300)).length ≤ 13) ∧
    (write_lob [1, 2, 3] 0x90 = [0x93, 1, 2, 3] ∧ (3 : Nat) ≠ 14) ∧
    write_lob [1, 2, 3, 4, 5, 6, 7, 8, 9, 10, 11, 12, 13, 14] 0xA0 =
      [0xAE, 0x8E, 1, 2, 3, 4, 5, 6, 7, 8, 9, 10, 11, 12, 13, 14] ∧
    write_int 300 = [0x22, 1, 44] := by
  obtain ⟨h1, h2, -, -, -, -, h7, -⟩ :=
    claim_C7_length_selection [1, 2, 3] (beBytes (Int.natAbs 300)) 0x90 "" 300 rfl
  obtain ⟨-, h2a, -, -, -, -, -, -⟩ :=
    claim_C7_length_selection [1, 2, 3, 4, 5, 6, 7, 8, 9, 10, 11, 12, 13, 14]
      (beBytes (Int.natAbs 300)) 0xA0 "" 300 rfl
  refine ⟨⟨by decide, by decide, by decide⟩, ?_, ?_, ?_⟩
  · obtain ⟨ha, hb⟩ := h1 (by decide)
    rw [ha]
    exact ⟨by decide, hb⟩
  · rw [h2a (by decide)]
    decide
  · rw [h7 (by decide) (by decide)]
    decide

/-- C8: on the all-zero bit pattern (positive zero) `write_f32` and
`write_f64` emit exactly the single byte `0x40`; on every other pattern —
negative zero and NaNs included — they emit `0x44`/`0x48` followed by the
4/8 big-endian IEEE bytes, so negative `0.0f32` yields
`0x44 0x80 0x00 0x00 0x00`. -/
theorem claim_C8_float_zero (b32 b64 : Nat) (h32 : b32 < 2 ^ 32)
    (h64 : b64 < 2 ^ 64) :
    write_f32 0 = [0x40] ∧
    write_f64 0 = [0x40] ∧
    (b32 ≠ 0 → write_f32 b32 = 0x44 :: beBytesFixed 4 b32) ∧
    (b64 ≠ 0 → write_f64 b64 = 0x48 :: beBytesFixed 8 b64) ∧
    write_f32 0x80000000 = [0x44, 0x80, 0x00, 0x00, 0x00] := by
  refine ⟨by decide, by decide, fun hne => ?_, fun hne => ?_, by decide⟩
  · have hcond : (f32_eq_zero b32 && !f32_is_sign_negative b32) = false := by
      cases hsn : f32_is_sign_negative b32 with
      | true => simp [hsn]
      | false =>
        have hlt : b32 < 2 ^ 31 := by
          have := of_decide_eq_false hsn
          omega
        have hz : f32_eq_zero b32 = false := by
          simp only [f32_eq_zero, beq_eq_false_iff_ne, ne_eq]
          omega
        simp [hz]
    simp [write_f32, hcond]
  · have hcond : (f64_eq_zero b64 && !f64_is_sign_negative b64) = false := by
      cases hsn : f64_is_sign_negative b64 with
      | true => simp [hsn]
      | false =>
        have hlt : b64 < 2 ^ 63 := by
          have := of_decide_eq_false hsn
          omega
        have hz : f64_eq_zero b64 = false := by
          simp only [f64_eq_zero, beq_eq_false_iff_ne, ne_eq]
          omega
        simp [hz]
    simp [write_f64, hcond]

theorem claim_C8_float_zero_witness :
    ((0x40490FDB : Nat) < 2 ^ 32 ∧ (0x8000000000000000 : Nat) < 2 ^ 64 ∧
      (0x40490FDB : Nat) ≠ 0 ∧ (0x8000000000000000 : Nat) ≠ 0) ∧
    (write_f32 0 = [0x40] ∧
     write_f64 0 = [0x40] ∧
     write_f32 0x40490FDB = 0x44 :: beBytesFixed 4 0x40490FDB ∧
     write_f64 0x8000000000000000 = 0x48 :: beBytesFixed 8 0x8000000000000000 ∧
     write_f32 0x80000000 = [0x44, 0x80, 0x00, 0x00, 0x00]) := by
  obtain ⟨h1, h2, h3, h4, h5⟩ :=
    claim_C8_float_zero 0x40490FDB 0x8000000000000000 (by decide) (by decide)
  exact ⟨⟨by decide, by decide, by decide, by decide⟩,
    h1, h2, h3 (by decide), h4 (by decide), h5⟩

/-- An annotations sequence containing a textual annotation encodes to the
fixed encoding error, with nothing produced. -/
theorem encode_annotations_sequence_text_error
    (anns : List RawSymbolTokenRef)
    (hex : ∃ a ∈ anns, ∃ s, a = RawSymbolTokenRef.text s) :
    encode_annotations_sequence anns =
      .error (.encodingError
        "binary Ion 1.0 cannot encode text literal annotations") := by
  induction anns with
  | nil => simp at hex
  | cons a rest ih =>
    cases a with
    | text s => rfl
    | symbolId sid =>
      have hex2 : ∃ a ∈ rest, ∃ s, a = RawSymbolTokenRef.text s := by
        rcases hex with ⟨a, ha, s, hs⟩
        rcases List.mem_cons.mp ha with heq | hmem
        · rw [heq] at hs; exact absurd hs (by simp)
        · exact ⟨a, hmem, s, hs⟩
      simp [encode_annotations_sequence, ih hex2]

/-- C9: a symbol value carrying text is rejected by `write_symbol` with an
illegal-operation error, and an annotation sequence containing a textual
annotation makes the annotation wrapper fail with an encoding error; in both
cases the error is returned before any byte reaches the parent output
buffer. -/
theorem claim_C9_text_rejected (t : String) (anns : List RawSymbolTokenRef)
    (v : List Nat)
    (hex : ∃ a ∈ anns, ∃ s, a = RawSymbolTokenRef.text s) :
    write_symbol (.text t) = .error (.illegalOperation
      "the Ion 1.0 raw binary writer cannot write text symbols") ∧
    annotate_encoded_value anns v =
      .error (.encodingError
        "binary Ion 1.0 cannot encode text literal annotations") := by
  refine ⟨rfl, ?_⟩
  simp [annotate_encoded_value, encode_annotations_sequence_text_error anns hex]

theorem claim_C9_text_rejected_witness :
    (∃ a ∈ [RawSymbolTokenRef.symbolId 4, RawSymbolTokenRef.text "hi"],
        ∃ s, a = RawSymbolTokenRef.text s) ∧
    (write_symbol (.text "name") = .error (.illegalOperation
       "the Ion 1.0 raw binary writer cannot write text symbols") ∧
     annotate_encoded_value
         [RawSymbolTokenRef.symbolId 4, RawSymbolTokenRef.text "hi"] [0x20] =
       .error (.encodingError
         "binary Ion 1.0 cannot encode text literal annotations")) :=
  ⟨⟨RawSymbolTokenRef.text "hi", by simp, "hi", rfl⟩,
   claim_C9_text_rejected "name" _ [0x20]
     ⟨RawSymbolTokenRef.text "hi", by simp, "hi", rfl⟩⟩
